import Mathlib

/-!
# Verification of the google-maps-scraper core

Shallow embedding of the repository's pure logic, together with proofs of the
behavioural claims made by its specification.

* `src/parser.ts` — `parseCityFromAddress`, `extractActualUrl`, `cleanText`,
  `isGoogleUrl`
* `src/scraper.ts` — the `scrollAndCollectLinks` discovery loop
* `src/utils/navigation.ts` — `navigateToUrl`
* `src/utils/export.ts` — `exportToCSV`
* `src/utils/database.ts` — `addPlace`, `addPlaces`, `reset`

Stateful loops that interact with the browser page are embedded as functions
over an explicit list of per-iteration observations (what the page yielded on
each poll); every definition is executable.
-/

namespace GMaps

/-! ## Scroll-discovery engine (`src/scraper.ts`, `scrollAndCollectLinks`)

One loop iteration of `scrollAndCollectLinks` makes two observations of the
page: the list of hrefs matched by the link selectors, and whether the
end-of-results marker probe (which runs at the end of the iteration) fires.
A `Poll` bundles both; a run of the loop is driven by a list of polls. -/

/-- Observations the page yields during one iteration of the scroll loop:
the hrefs found by the link selectors, and whether the end-of-results
marker probe at the end of the iteration returns `true`. -/
structure Poll where
  newLinks : List String
  endMarker : Bool
  deriving DecidableEq

/-- Loop state of `scrollAndCollectLinks`: the accumulated `links` set
(a JS `Set` preserves insertion order, so it is modelled as a duplicate-free
list in first-discovered order), `previousCount`, and `scrollAttempts`. -/
structure ScrollState where
  links : List String
  previousCount : Nat
  scrollAttempts : Nat
  deriving DecidableEq

/-- `const maxScrollAttempts = 100` in `scrollAndCollectLinks`. -/
def maxScrollAttempts : Nat := 100

/-- `const stableCountThreshold = 10` in `scrollAndCollectLinks`. -/
def stableCountThreshold : Nat := 10

/-- Insertion-order `Set.add`: append the element unless already present. -/
def setAdd (l : List String) (x : String) : List String :=
  if x ∈ l then l else l ++ [x]

/-- `newLinks.forEach(link => links.add(link))`. -/
def setAddAll (l : List String) (xs : List String) : List String :=
  xs.foldl setAdd l

/-- The `while` condition of the collection loop:
`(maxResults === undefined || links.size < maxResults) && scrollAttempts < maxScrollAttempts`. -/
def guardHolds (maxResults : Option Nat) (st : ScrollState) : Bool :=
  (match maxResults with
   | none => true
   | some m => decide (st.links.length < m))
  && decide (st.scrollAttempts < maxScrollAttempts)

/-- Result of running the loop against a finite list of modelled polls:
either the loop exited by its own logic (carrying the collected links and the
polls it never performed), or the modelled feed was exhausted while the loop
still wanted to iterate. -/
inductive RunResult where
  | finished (links : List String) (remaining : List Poll)
  | outOfPolls (st : ScrollState)
  deriving DecidableEq

/-- `true` iff the loop consumed every modelled poll and was still iterating. -/
def RunResult.ranOut : RunResult → Bool
  | .outOfPolls _ => true
  | .finished _ _ => false

/-- The collection loop of `scrollAndCollectLinks` (scraper.ts lines 200-293),
one constructor case per iteration.  Per iteration: collect the links and merge
them into the set; if the set did not grow, increment `scrollAttempts` and
break once it reaches `stableCountThreshold`; otherwise reset `scrollAttempts`
and update `previousCount`; then scroll, and break if the end-of-results
marker is present. -/
def scrollLoop (maxResults : Option Nat) (st : ScrollState) :
    List Poll → RunResult
  | [] => if guardHolds maxResults st then .outOfPolls st
          else .finished st.links []
  | p :: rest =>
    if guardHolds maxResults st then
      let links' := setAddAll st.links p.newLinks
      if links'.length = st.previousCount then
        let sa := st.scrollAttempts + 1
        if stableCountThreshold ≤ sa then
          .finished links' rest
        else if p.endMarker then
          .finished links' rest
        else
          scrollLoop maxResults ⟨links', st.previousCount, sa⟩ rest
      else
        if p.endMarker then
          .finished links' rest
        else
          scrollLoop maxResults ⟨links', links'.length, 0⟩ rest
    else .finished st.links (p :: rest)

/-- Initial loop state: empty set, `previousCount = 0`, `scrollAttempts = 0`. -/
def initState : ScrollState := ⟨[], 0, 0⟩

/-- `scrollAndCollectLinks(maxResults)`: run the loop from the initial state,
then `return maxResults !== undefined ? collectedLinks.slice(0, maxResults)
: collectedLinks`.  `none` when the modelled feed ran out of polls before the
loop decided to stop. -/
def scrollAndCollectLinks (maxResults : Option Nat) (polls : List Poll) :
    Option (List String) :=
  match scrollLoop maxResults initState polls with
  | .finished links _ =>
      some (match maxResults with
            | some m => links.take m
            | none => links)
  | .outOfPolls _ => none

example : scrollAndCollectLinks (some 0) [⟨["a"], false⟩] = some [] := by decide

example :
    scrollLoop none ⟨["a"], 1, 0⟩ (List.replicate 10 ⟨["a"], false⟩) =
      .finished ["a"] [] := by decide

theorem setAdd_eq_of_mem {l : List String} {x : String} (h : x ∈ l) :
    setAdd l x = l := by
  simp [setAdd, h]

theorem setAddAll_eq_of_subset {l : List String} :
    ∀ {xs : List String}, (∀ x ∈ xs, x ∈ l) → setAddAll l xs = l
  | [], _ => rfl
  | x :: xs, h => by
      simp only [setAddAll, List.foldl_cons]
      rw [setAdd_eq_of_mem (h x (by simp))]
      exact setAddAll_eq_of_subset fun y hy => h y (by simp [hy])

/-- A run of consecutive polls that each yield only already-collected
identifiers and no end marker drives `scrollAttempts` up to
`stableCountThreshold`, at which point the loop stops with exactly the
identifiers it had accumulated; the remaining polls are never performed. -/
theorem stableRun :
    ∀ (ps : List Poll) (st : ScrollState) (rest : List Poll) (L : List String),
    st.previousCount = st.links.length →
    st.scrollAttempts + ps.length = stableCountThreshold →
    ps ≠ [] →
    (∀ p ∈ ps, p.newLinks = L ∧ p.endMarker = false) →
    (∀ x ∈ L, x ∈ st.links) →
    scrollLoop none st (ps ++ rest) = .finished st.links rest
  | [], _, _, _, _, _, hne, _, _ => absurd rfl hne
  | p :: ps, st, rest, L, h1, h2, _, hps, hsub => by
      have hpL : p.newLinks = L := (hps p (by simp)).1
      have hpE : p.endMarker = false := (hps p (by simp)).2
      have hlen : st.scrollAttempts + (ps.length + 1) = 10 := by
        simpa [stableCountThreshold] using h2
      have hguard : guardHolds none st = true := by
        simp only [guardHolds, Bool.true_and, decide_eq_true_eq,
          maxScrollAttempts]
        omega
      have hlinks : setAddAll st.links p.newLinks = st.links := by
        rw [hpL]; exact setAddAll_eq_of_subset hsub
      rw [List.cons_append]
      simp only [scrollLoop, hguard, if_true, hlinks, h1.symm, if_pos rfl]
      by_cases hps0 : ps = []
      · subst hps0
        have hsa : st.scrollAttempts + 1 = 10 := by simpa using hlen
        simp [stableCountThreshold, hsa]
      · have hlt : ¬ stableCountThreshold ≤ st.scrollAttempts + 1 := by
          have : ps.length ≠ 0 := fun h => hps0 (List.length_eq_zero.mp h)
          simp only [stableCountThreshold]; omega
        simp only [if_neg hlt, hpE, Bool.false_eq_true, if_false]
        exact stableRun ps ⟨st.links, st.previousCount, st.scrollAttempts + 1⟩
          rest L h1
          (by
            show st.scrollAttempts + 1 + ps.length = stableCountThreshold
            simp only [stableCountThreshold]
            omega)
          hps0 (fun q hq => hps q (by simp [hq])) hsub

/-- **C1.** In a discovery run where, starting from a state whose no-growth
counter is zero, the feed yields the identical identifier set `L` (already
accumulated) on `stableCountThreshold` consecutive polls with no end-of-list
marker, `scrollLoop` terminates at the poll that makes the no-growth counter
reach the threshold, returns exactly the accumulated identifiers, and performs
none of the remaining polls — so the result is never a superset of the
accumulated set. -/
theorem scroll_stable_threshold_terminates_exact
    (st : ScrollState) (L : List String) (ps rest : List Poll)
    (hprev : st.previousCount = st.links.length)
    (hsa : st.scrollAttempts = 0)
    (hlen : ps.length = stableCountThreshold)
    (hid : ∀ p ∈ ps, p.newLinks = L ∧ p.endMarker = false)
    (hsub : ∀ x ∈ L, x ∈ st.links) :
    scrollLoop none st (ps ++ rest) = .finished st.links rest :=
  stableRun ps st rest L hprev (by omega)
    (by
      intro h
      rw [h] at hlen
      simp [stableCountThreshold] at hlen)
    hid hsub

/-- Witness for C1: a state that has accumulated `["a"]`, ten consecutive
polls each yielding `["a"]` again, and one further poll that is never
performed. -/
theorem scroll_stable_threshold_terminates_exact_witness :
    scrollLoop none ⟨["a"], 1, 0⟩
        (List.replicate 10 (⟨["a"], false⟩ : Poll) ++ [⟨["b"], true⟩]) =
      .finished ["a"] [⟨["b"], true⟩] :=
  scroll_stable_threshold_terminates_exact ⟨["a"], 1, 0⟩ ["a"] _ _
    (by decide) (by decide) (by decide)
    (by
      intro p hp
      rw [List.eq_of_mem_replicate hp]
      exact ⟨rfl, rfl⟩)
    (by decide)

set_option maxRecDepth 40000 in
/-- **C2.** Evidence that the iteration ceiling is *not* a cap on total
iterations: on a feed whose every poll yields one fresh identifier, the loop
consumes 101 polls (more than `maxScrollAttempts = 100` iterations) and is
still iterating, because `scrollAttempts` is reset to zero on every growth
iteration.  The ceiling only bounds *consecutive no-growth* iterations, so it
does not guarantee termination when the no-growth heuristic never fires. -/
theorem scroll_cap_does_not_bound_total_iterations :
    (scrollLoop none initState
        ((List.range 101).map fun i => ⟨[toString i], false⟩)).ranOut
      = true := by decide

/-- **C5.** With `maxResults = 0` the loop guard fails at once: for every
feed the loop performs no poll, leaves its input polls untouched and
`scrollAndCollectLinks` returns the empty list.  With
`maxResults = undefined` the guard never fails on account of the result
count (only `scrollAttempts < maxScrollAttempts` remains), and whenever the
loop finishes, `scrollAndCollectLinks` returns all accumulated identifiers
untruncated. -/
theorem scroll_limit_zero_vs_unlimited :
    (∀ polls : List Poll,
        scrollLoop (some 0) initState polls = .finished [] polls ∧
        scrollAndCollectLinks (some 0) polls = some []) ∧
    (∀ st : ScrollState,
        guardHolds none st = decide (st.scrollAttempts < maxScrollAttempts)) ∧
    (∀ (polls : List Poll) (links : List String) (rem : List Poll),
        scrollLoop none initState polls = .finished links rem →
        scrollAndCollectLinks none polls = some links) := by
  refine ⟨fun polls => ?_, fun st => ?_, fun polls links rem h => ?_⟩
  · have h0 : scrollLoop (some 0) initState polls = .finished [] polls := by
      cases polls with
      | nil => simp [scrollLoop, initState, guardHolds]
      | cons p rest => simp [scrollLoop, initState, guardHolds]
    exact ⟨h0, by simp [scrollAndCollectLinks, h0]⟩
  · simp [guardHolds]
  · simp [scrollAndCollectLinks, h]

/-- Witness for C5: a concrete feed under `maxResults = 0`, and a concrete
feed (ten empty polls, stopping via the stability heuristic) under
`maxResults = undefined`. -/
theorem scroll_limit_zero_vs_unlimited_witness :
    scrollAndCollectLinks (some 0) [⟨["a"], false⟩] = some [] ∧
    scrollAndCollectLinks none (List.replicate 10 (⟨[], false⟩ : Poll)) =
      some [] :=
  ⟨(scroll_limit_zero_vs_unlimited.1 [⟨["a"], false⟩]).2,
   scroll_limit_zero_vs_unlimited.2.2 _ [] [] (by decide)⟩

/-! ## Address parsing (`src/parser.ts`, `parseCityFromAddress`) -/

/-- `address.split(',')` on a character list (JS `split` with a one-character
separator keeps empty pieces; `"".split(',')` is `[""]`). -/
def splitOnChar (sep : Char) : List Char → List (List Char)
  | [] => [[]]
  | c :: cs =>
    match splitOnChar sep cs with
    | [] => [[]]
    | h :: t => if c = sep then [] :: h :: t else (c :: h) :: t

/-- `part.trim()` on a character list: strip leading and trailing
whitespace.  (JS `trim` strips the full Unicode whitespace class; the model
uses ASCII whitespace, which is what address strings contain.) -/
def trimChars (cs : List Char) : List Char :=
  ((cs.dropWhile Char.isWhitespace).reverse.dropWhile Char.isWhitespace).reverse

/-- JS `a || b` on strings: `a` when non-empty (truthy), else `b`. -/
def jsOr (a b : List Char) : List Char :=
  if a = [] then b else a

/-- `cityPart.replace(/\d+/g, '')`: replacing every run of digits by the
empty string deletes exactly the digit characters. -/
def stripDigits (cs : List Char) : List Char :=
  cs.filter fun c => !c.isDigit

/-- `parseCityFromAddress` (parser.ts lines 13-24): split on commas, trim the
parts; with at least two parts take `parts[parts.length - 2] || parts[1]`,
delete digits and trim; otherwise return the input unchanged. -/
def parseCityFromAddress (address : String) : String :=
  let parts := (splitOnChar ',' address.toList).map trimChars
  if 2 ≤ parts.length then
    let cityPart := jsOr (parts.getD (parts.length - 2) []) (parts.getD 1 [])
    String.mk (trimChars (stripDigits cityPart))
  else address

/-- The locality description in the spec's words, amended to what the code
forces: the second-to-last trimmed component (counted from the end of the
list), falling back to the *second* component when the second-to-last is
empty after trimming, with digits deleted and the result trimmed — interior
whitespace preserved, not collapsed. -/
def localityDescription (address : String) : String :=
  let parts := (splitOnChar ',' address.toList).map trimChars
  if 2 ≤ parts.length then
    let secondToLast := parts.reverse.getD 1 []
    String.mk (trimChars (stripDigits (jsOr secondToLast (parts.getD 1 []))))
  else address

example : parseCityFromAddress "123 Main St, New York, NY 10001" = "New York" := by
  decide

/-- **C3 counterexample.** The code only trims the extracted component, it
does not collapse interior whitespace runs; and when the second-to-last
component is empty it falls back to the second component rather than
returning the empty string. -/
theorem parseCity_not_collapsing_counterexample :
    parseCityFromAddress "1 A St, New  York, NY" = "New  York" ∧
    ("New  York" : String) ≠ "New York" ∧
    parseCityFromAddress "a,b,,d" = "b" ∧
    ("b" : String) ≠ "" := by
  decide

theorem getD_reverse_one {α : Type} (l : List α) (d : α) (h : 2 ≤ l.length) :
    l.reverse.getD 1 d = l.getD (l.length - 2) d := by
  have h1 : 1 < l.length := by omega
  rw [List.getD_eq_getElem?_getD, List.getD_eq_getElem?_getD,
    List.getElem?_reverse (by simpa using h1)]
  congr 2

/-- **C3 (amended).** For every address string, `parseCityFromAddress`
returns the second-to-last trimmed comma-separated component — or the second
component when that one is empty — with digits deleted and trimmed (interior
whitespace preserved); `"123 Main St, New York, NY 10001"` yields
`"New York"`; and with fewer than two components the input is returned
unchanged. -/
theorem parseCity_matches_description :
    (∀ address : String, parseCityFromAddress address = localityDescription address) ∧
    parseCityFromAddress "123 Main St, New York, NY 10001" = "New York" ∧
    (∀ address : String,
      ((splitOnChar ',' address.toList).map trimChars).length < 2 →
      parseCityFromAddress address = address) := by
  refine ⟨fun address => ?_, by decide, fun address h => ?_⟩
  · unfold parseCityFromAddress localityDescription
    by_cases h : 2 ≤ ((splitOnChar ',' address.toList).map trimChars).length
    · simp only [if_pos h]
      rw [getD_reverse_one _ _ h]
    · simp only [if_neg h]
  · unfold parseCityFromAddress
    rw [if_neg (by omega)]

/-- Witness for the amended C3: an address with a single component is
returned unchanged. -/
theorem parseCity_matches_description_witness :
    parseCityFromAddress "Main Square 7" = "Main Square 7" :=
  parseCity_matches_description.2.2 "Main Square 7" (by decide)

/-! ## Website URL handling (`src/parser.ts`, `extractActualUrl` and
`isGoogleUrl`)

`extractActualUrl` uses `decodeURIComponent`, which percent-decodes and
rejects malformed escapes with a `URIError`; it is modelled as a function
into `Option String` (`none` = the exception escapes).  `isGoogleUrl` uses
`new URL(...)`, modelled (restricted to http(s) URLs written with an explicit
`://`) by `hostOf?`. -/

/-- Numeric value of a hexadecimal digit, or `none`. -/
def hexDigitVal? (c : Char) : Option Nat :=
  if '0' ≤ c ∧ c ≤ '9' then some (c.toNat - 48)
  else if 'A' ≤ c ∧ c ≤ 'F' then some (c.toNat - 55)
  else if 'a' ≤ c ∧ c ≤ 'f' then some (c.toNat - 87)
  else none

/-- UTF-8 continuation byte. -/
def isCont (b : Nat) : Bool :=
  decide (0x80 ≤ b) && decide (b ≤ 0xBF)

/-- Payload of a continuation byte. -/
def contVal (b : Nat) : Nat := b - 0x80

/-- Strict UTF-8 decoding of a byte sequence (rejects truncated sequences,
stray continuation bytes, overlong forms, surrogates and values beyond
U+10FFFF), as required by the ECMAScript `decodeURIComponent` algorithm. -/
def utf8Decode : List Nat → Option (List Char)
  | [] => some []
  | b :: bs =>
    if b ≤ 0x7F then
      (Char.ofNat b :: ·) <$> utf8Decode bs
    else if b < 0xC2 then none
    else if b ≤ 0xDF then
      match bs with
      | b2 :: bs' =>
        if isCont b2 then
          (Char.ofNat ((b - 0xC0) * 0x40 + contVal b2) :: ·) <$> utf8Decode bs'
        else none
      | [] => none
    else if b ≤ 0xEF then
      match bs with
      | b2 :: b3 :: bs' =>
        if (if b = 0xE0 then decide (0xA0 ≤ b2) && decide (b2 ≤ 0xBF)
            else if b = 0xED then decide (0x80 ≤ b2) && decide (b2 ≤ 0x9F)
            else isCont b2) && isCont b3 then
          (Char.ofNat ((b - 0xE0) * 0x1000 + contVal b2 * 0x40 + contVal b3)
              :: ·) <$> utf8Decode bs'
        else none
      | _ => none
    else if b ≤ 0xF4 then
      match bs with
      | b2 :: b3 :: b4 :: bs' =>
        if (if b = 0xF0 then decide (0x90 ≤ b2) && decide (b2 ≤ 0xBF)
            else if b = 0xF4 then decide (0x80 ≤ b2) && decide (b2 ≤ 0x8F)
            else isCont b2) && isCont b3 && isCont b4 then
          (Char.ofNat ((b - 0xF0) * 0x40000 + contVal b2 * 0x1000
              + contVal b3 * 0x40 + contVal b4) :: ·) <$> utf8Decode bs'
        else none
      | _ => none
    else none

/-- UTF-8 encoding of one character. -/
def charUtf8Bytes (c : Char) : List Nat :=
  let n := c.toNat
  if n ≤ 0x7F then [n]
  else if n ≤ 0x7FF then [0xC0 + n / 0x40, 0x80 + n % 0x40]
  else if n ≤ 0xFFFF then
    [0xE0 + n / 0x1000, 0x80 + (n / 0x40) % 0x40, 0x80 + n % 0x40]
  else
    [0xF0 + n / 0x40000, 0x80 + (n / 0x1000) % 0x40,
     0x80 + (n / 0x40) % 0x40, 0x80 + n % 0x40]

/-- Byte sequence denoted by a percent-encoded string: each `%XX` escape
contributes the byte `XX` (two hexadecimal digits are mandatory, else
`URIError`), every literal character contributes its UTF-8 bytes. -/
def pctBytes : List Char → Option (List Nat)
  | [] => some []
  | '%' :: a :: b :: rest =>
    match hexDigitVal? a, hexDigitVal? b with
    | some x, some y => ((16 * x + y) :: ·) <$> pctBytes rest
    | _, _ => none
  | '%' :: _ => none
  | c :: rest => (charUtf8Bytes c ++ ·) <$> pctBytes rest

/-- `decodeURIComponent(s)`: the byte sequence of the percent-encoded string
must decode as strict UTF-8; `none` models the `URIError` exception.
(Escape runs and literal characters each contribute well-formed-or-rejected
byte blocks, so validating the concatenation is equivalent to the
per-escape-run ECMAScript algorithm and produces the same characters.) -/
def percentDecode (s : String) : Option String :=
  match pctBytes s.toList with
  | some bytes => (utf8Decode bytes).map fun cs => String.mk cs
  | none => none

/-- The literal searched for by `googleUrl.includes('url?q=')` and by the
regular expression `/url\?q=([^&]+)/`. -/
def wrapLit : List Char := ['u', 'r', 'l', '?', 'q', '=']

/-- `googleUrl.includes('url?q=')`. -/
def hasWrap : List Char → Bool
  | [] => false
  | c :: rest => wrapLit.isPrefixOf (c :: rest) || hasWrap rest

/-- First capture of `/url\?q=([^&]+)/`: scanning left to right, the first
position where `url?q=` is followed by at least one non-`&` character wins,
and the capture is the maximal run of non-`&` characters there. -/
def findWrap : List Char → Option (List Char)
  | [] => none
  | c :: rest =>
    if wrapLit.isPrefixOf (c :: rest) then
      let cap := ((c :: rest).drop 6).takeWhile (· != '&')
      if cap = [] then findWrap rest else some cap
    else findWrap rest

/-- `extractActualUrl` (parser.ts lines 31-39): if the URL contains
`url?q=`, decode the regex capture when the regex matches; in every other
case return the input unchanged.  `none` models an escaping `URIError`. -/
def extractActualUrl (googleUrl : String) : Option String :=
  if hasWrap googleUrl.toList then
    match findWrap googleUrl.toList with
    | some cap => percentDecode (String.mk cap)
    | none => some googleUrl
  else some googleUrl

/-- Characters that terminate the authority component of a URL. -/
def isHostDelim (c : Char) : Bool :=
  c = '/' || c = '?' || c = '#'

/-- Scheme recognition of the `new URL` model: `http://` or `https://`. -/
def stripScheme? (cs : List Char) : Option (List Char) :=
  if ("http://".toList).isPrefixOf cs then some (cs.drop 7)
  else if ("https://".toList).isPrefixOf cs then some (cs.drop 8)
  else none

/-- The part of the authority after the last `@` (userinfo stripping). -/
def afterLastAt (cs : List Char) : List Char :=
  (cs.reverse.takeWhile (· != '@')).reverse

/-- The hostname within a `host[:port]` component: up to the first `:`; an
empty hostname or a non-numeric port makes `new URL` throw (`none`). -/
def hostFromAuthority (hostport : List Char) : Option (List Char) :=
  if hostport.takeWhile (· != ':') = [] then none
  else
    match hostport.dropWhile (· != ':') with
    | [] => some (hostport.takeWhile (· != ':'))
    | _ :: port =>
      if port.all (·.isDigit) then some (hostport.takeWhile (· != ':'))
      else none

/-- Restricted model of WHATWG `new URL(url).hostname` for http(s) URLs
written with an explicit `://`: the authority runs to the first `/`, `?` or
`#`; userinfo before the last `@` is stripped; the hostname stops at the
first `:`. -/
def hostOf? (cs : List Char) : Option (List Char) :=
  (stripScheme? cs).bind fun after =>
    hostFromAuthority (afterLastAt (after.takeWhile fun c => !isHostDelim c))

/-- `isGoogleUrl` (parser.ts lines 72-82): an empty string is falsy; a URL
that fails to parse yields `false`; otherwise the lowercased hostname is
compared against `google.com` and suffix `.google.com`. -/
def isGoogleUrl (url : String) : Bool :=
  if url = "" then false
  else
    match hostOf? url.toList with
    | none => false
    | some h =>
      let hostname := h.map Char.toLower
      hostname = "google.com".toList
        || (".google.com".toList).isSuffixOf hostname

example :
    extractActualUrl "https://www.google.com/url?q=https%3A%2F%2Fexample.com&sa=z"
      = some "https://example.com" := by decide

example : extractActualUrl "https://example.com/a" = some "https://example.com/a" := by
  decide

example : isGoogleUrl "https://maps.google.com/place" = true := by decide

example : isGoogleUrl "https://example.com" = false := by decide

example : isGoogleUrl "https://notgoogle.com" = false := by decide

theorem takeWhile_all {α : Type} {p : α → Bool} :
    ∀ {l : List α}, (∀ x ∈ l, p x = true) → l.takeWhile p = l
  | [], _ => rfl
  | x :: xs, h => by
      have hx := h x (by simp)
      simp only [List.takeWhile_cons, hx, if_true]
      rw [takeWhile_all fun y hy => h y (by simp [hy])]

theorem dropWhile_all {α : Type} {p : α → Bool} :
    ∀ {l : List α}, (∀ x ∈ l, p x = true) → l.dropWhile p = []
  | [], _ => rfl
  | x :: xs, h => by
      have hx := h x (by simp)
      simp only [List.dropWhile_cons, hx, if_true]
      exact dropWhile_all fun y hy => h y (by simp [hy])

theorem takeWhile_append_stop {α : Type} {p : α → Bool} :
    ∀ (a b : List α), (∀ x ∈ a, p x = true) →
      (b = [] ∨ ∃ h t, b = h :: t ∧ p h = false) →
      (a ++ b).takeWhile p = a
  | [], b, _, hb => by
      rcases hb with rfl | ⟨h, t, rfl, hph⟩
      · rfl
      · simp [List.takeWhile_cons, hph]
  | x :: a, b, ha, hb => by
      have hx := ha x (by simp)
      simp only [List.cons_append, List.takeWhile_cons, hx, if_true]
      rw [takeWhile_append_stop a b (fun y hy => ha y (by simp [hy])) hb]

theorem dropWhile_append_stop {α : Type} {p : α → Bool} :
    ∀ (a b : List α), (∀ x ∈ a, p x = true) →
      (b = [] ∨ ∃ h t, b = h :: t ∧ p h = false) →
      (a ++ b).dropWhile p = b
  | [], b, _, hb => by
      rcases hb with rfl | ⟨h, t, rfl, hph⟩
      · rfl
      · simp [List.dropWhile_cons, hph]
  | x :: a, b, ha, hb => by
      have hx := ha x (by simp)
      simp only [List.cons_append, List.dropWhile_cons, hx, if_true]
      exact dropWhile_append_stop a b (fun y hy => ha y (by simp [hy])) hb

theorem isPrefixOf_append_self (pat r : List Char) :
    pat.isPrefixOf (pat ++ r) = true :=
  List.isPrefixOf_iff_prefix.mpr ⟨r, rfl⟩

theorem isPrefixOf_append_of_le (pat l r : List Char)
    (h : pat.length ≤ l.length) :
    pat.isPrefixOf (l ++ r) = pat.isPrefixOf l := by
  rw [Bool.eq_iff_iff, List.isPrefixOf_iff_prefix, List.isPrefixOf_iff_prefix,
    List.prefix_iff_eq_take, List.prefix_iff_eq_take,
    List.take_append_of_le_length h]

theorem hasWrap_cons (c : Char) (t : List Char) :
    hasWrap (c :: t) = (wrapLit.isPrefixOf (c :: t) || hasWrap t) := rfl

theorem findWrap_cons (c : Char) (t : List Char) :
    findWrap (c :: t) =
      (if wrapLit.isPrefixOf (c :: t) then
        if ((c :: t).drop 6).takeWhile (· != '&') = [] then findWrap t
        else some (((c :: t).drop 6).takeWhile (· != '&'))
      else findWrap t) := rfl

theorem hasWrap_append_wrap :
    ∀ (pre r : List Char), hasWrap (pre ++ (wrapLit ++ r)) = true
  | [], r => by
      rw [List.nil_append]
      show hasWrap ('u' :: (['r', 'l', '?', 'q', '='] ++ r)) = true
      rw [hasWrap_cons]
      have h : wrapLit.isPrefixOf ('u' :: (['r', 'l', '?', 'q', '='] ++ r))
          = true := isPrefixOf_append_self wrapLit r
      rw [h]
      simp
  | c :: pre, r => by
      rw [List.cons_append, hasWrap_cons, hasWrap_append_wrap pre r]
      simp

theorem findWrap_at :
    ∀ (pre enc post : List Char),
      hasWrap (pre ++ wrapLit.take 5) = false →
      enc ≠ [] →
      (∀ c ∈ enc, c ≠ '&') →
      (post = [] ∨ ∃ t, post = '&' :: t) →
      findWrap (pre ++ (wrapLit ++ (enc ++ post))) = some enc
  | [], enc, post, _, hne, henc, hpost => by
      rw [List.nil_append]
      show findWrap ('u' :: (['r', 'l', '?', 'q', '='] ++ (enc ++ post)))
        = some enc
      rw [findWrap_cons]
      have hpre : wrapLit.isPrefixOf
          ('u' :: (['r', 'l', '?', 'q', '='] ++ (enc ++ post))) = true :=
        isPrefixOf_append_self wrapLit (enc ++ post)
      have hdrop : ('u' :: (['r', 'l', '?', 'q', '='] ++ (enc ++ post))).drop 6
          = enc ++ post := by
        show (enc ++ post).drop 0 = enc ++ post
        exact List.drop_zero _
      have hcap : (enc ++ post).takeWhile (· != '&') = enc := by
        refine takeWhile_append_stop enc post (fun c hc => ?_) ?_
        · simpa using henc c hc
        · rcases hpost with rfl | ⟨t, rfl⟩
          · exact Or.inl rfl
          · exact Or.inr ⟨'&', t, rfl, by simp⟩
      rw [hpre, if_pos rfl, hdrop, hcap, if_neg hne]
  | c :: pre, enc, post, hw, hne, henc, hpost => by
      have hwc : hasWrap (c :: (pre ++ wrapLit.take 5)) = false := by
        simpa using hw
      rw [hasWrap_cons] at hwc
      have hnp : wrapLit.isPrefixOf (c :: (pre ++ wrapLit.take 5)) = false :=
        (Bool.or_eq_false_iff.mp hwc).1
      have hrest : hasWrap (pre ++ wrapLit.take 5) = false :=
        (Bool.or_eq_false_iff.mp hwc).2
      have hsplit :
          c :: (pre ++ (wrapLit ++ (enc ++ post))) =
            (c :: (pre ++ wrapLit.take 5)) ++
              (wrapLit.drop 5 ++ (enc ++ post)) := by
        simp [wrapLit, List.cons_append, List.append_assoc]
      have hlen : wrapLit.length ≤ (c :: (pre ++ wrapLit.take 5)).length := by
        simp [wrapLit]
      have hmain : wrapLit.isPrefixOf (c :: (pre ++ (wrapLit ++ (enc ++ post))))
          = false := by
        rw [hsplit, isPrefixOf_append_of_le _ _ _ hlen]
        exact hnp
      rw [List.cons_append, findWrap_cons, hmain]
      simp only [Bool.false_eq_true, if_false]
      exact findWrap_at pre enc post hrest hne henc hpost

/-- `new URL` on `host ++ rest` with a delimiter-free hostname and a rest
beginning with a path/query/fragment delimiter yields exactly `host`. -/
theorem hostOf_http (scheme host rest : List Char)
    (hs : scheme = "http://".toList ∨ scheme = "https://".toList)
    (hh : host ≠ [])
    (hhc : ∀ c ∈ host, isHostDelim c = false ∧ c ≠ ':' ∧ c ≠ '@')
    (hr : rest = [] ∨ ∃ c t, rest = c :: t ∧ isHostDelim c = true) :
    hostOf? (scheme ++ (host ++ rest)) = some host := by
  have hstrip : stripScheme? (scheme ++ (host ++ rest)) = some (host ++ rest) := by
    rcases hs with rfl | rfl
    · have hp := isPrefixOf_append_self "http://".toList (host ++ rest)
      have h7 : ("http://".toList).length = 7 := rfl
      unfold stripScheme?
      rw [hp, if_pos rfl, ← h7, List.drop_left]
    · have hp := isPrefixOf_append_self "https://".toList (host ++ rest)
      have hnp : ("http://".toList).isPrefixOf
          ("https://".toList ++ (host ++ rest)) = false := by
        simp [List.isPrefixOf]
      have h8 : ("https://".toList).length = 8 := rfl
      unfold stripScheme?
      rw [hnp, hp]
      rw [if_neg (by simp), if_pos rfl, ← h8, List.drop_left]
  have hauth : (host ++ rest).takeWhile (fun c => !isHostDelim c) = host := by
    refine takeWhile_append_stop host rest (fun c hc => by simp [(hhc c hc).1]) ?_
    rcases hr with rfl | ⟨c, t, rfl, hc⟩
    · exact Or.inl rfl
    · exact Or.inr ⟨c, t, rfl, by simp [hc]⟩
  have hat : afterLastAt host = host := by
    unfold afterLastAt
    rw [takeWhile_all (fun c hc => by
      simp [(hhc c (List.mem_reverse.mp hc)).2.2])]
    exact List.reverse_reverse host
  have htw : host.takeWhile (· != ':') = host :=
    takeWhile_all fun c hc => by simp [(hhc c hc).2.1]
  have hdw : host.dropWhile (· != ':') = [] :=
    dropWhile_all fun c hc => by simp [(hhc c hc).2.1]
  unfold hostOf?
  rw [hstrip]
  simp only [Option.some_bind]
  rw [hauth, hat]
  unfold hostFromAuthority
  rw [htw, hdw, if_neg hh]

/-- **C4.** Website URL resolution.  (1) On a URL of the canonical redirect
shape `pre ++ "url?q=" ++ enc ++ post` — `enc` non-empty and `&`-free, `post`
empty or starting at `&`, no earlier occurrence of the wrapper —
`extractActualUrl` returns exactly `decodeURIComponent(enc)`.  (2) A URL not
containing the wrapper (in particular a direct `https://` URL) is returned
unchanged.  (3) `isGoogleUrl` classifies a well-formed http(s) URL as Google
exactly when its lowercased hostname equals `google.com` or is a
(`.google.com`-suffixed) subdomain of it. -/
theorem url_resolution :
    (∀ pre enc post : String,
      hasWrap (pre.toList ++ wrapLit.take 5) = false →
      enc ≠ "" →
      (∀ c ∈ enc.toList, c ≠ '&') →
      (post = "" ∨ ∃ t, post.toList = '&' :: t) →
      extractActualUrl (pre ++ "url?q=" ++ enc ++ post) = percentDecode enc) ∧
    (∀ url : String,
      hasWrap url.toList = false →
      extractActualUrl url = some url) ∧
    (∀ host rest : String, ∀ scheme : String,
      (scheme = "http" ∨ scheme = "https") →
      host ≠ "" →
      (∀ c ∈ host.toList, isHostDelim c = false ∧ c ≠ ':' ∧ c ≠ '@') →
      (rest = "" ∨ ∃ c t, rest.toList = c :: t ∧ isHostDelim c = true) →
      (isGoogleUrl (scheme ++ "://" ++ host ++ rest) = true ↔
        (host.toList.map Char.toLower = "google.com".toList ∨
         ∃ s, host.toList.map Char.toLower = s ++ ".google.com".toList))) := by
  refine ⟨fun pre enc post hw hne henc hpost => ?_,
    fun url hw => ?_, fun host rest scheme hs hh hhc hr => ?_⟩
  · have hdata : (pre ++ "url?q=" ++ enc ++ post).toList =
        pre.toList ++ (wrapLit ++ (enc.toList ++ post.toList)) := by
      have hw6 : "url?q=".toList = wrapLit := by decide
      rw [← hw6]
      simp [String.toList, String.data_append, List.append_assoc]
    have hne' : enc.toList ≠ [] := by
      intro h
      apply hne
      cases enc with
      | mk d =>
        cases d with
        | nil => rfl
        | cons a b => simp [String.toList] at h
    have hfind := findWrap_at pre.toList enc.toList post.toList hw hne' henc
      (by
        rcases hpost with rfl | ⟨t, ht⟩
        · exact Or.inl rfl
        · exact Or.inr ⟨t, ht⟩)
    have hhas := hasWrap_append_wrap pre.toList (enc.toList ++ post.toList)
    unfold extractActualUrl
    rw [hdata, hhas, if_pos rfl, hfind]
    rfl
  · unfold extractActualUrl
    rw [hw]
    simp
  · have hr' : rest.toList = [] ∨
        ∃ c t, rest.toList = c :: t ∧ isHostDelim c = true := by
      rcases hr with rfl | ⟨c, t, h1, h2⟩
      · exact Or.inl rfl
      · exact Or.inr ⟨c, t, h1, h2⟩
    have hurl : (scheme ++ "://" ++ host ++ rest).toList =
        (scheme ++ "://").toList ++ (host.toList ++ rest.toList) := by
      simp [String.toList, String.data_append, List.append_assoc]
    have hh' : host.toList ≠ [] := by
      intro h
      apply hh
      cases host with
      | mk d =>
        cases d with
        | nil => rfl
        | cons a b => simp [String.toList] at h
    have hscheme : (scheme ++ "://").toList = "http://".toList ∨
        (scheme ++ "://").toList = "https://".toList := by
      rcases hs with rfl | rfl
      · exact Or.inl (by decide)
      · exact Or.inr (by decide)
    have hhost : hostOf? (scheme ++ "://" ++ host ++ rest).toList
        = some host.toList := by
      rw [hurl]
      exact hostOf_http _ _ _ hscheme hh' hhc hr'
    have hnonempty : scheme ++ "://" ++ host ++ rest ≠ "" := by
      intro h
      rw [h] at hurl
      have h2 : (scheme ++ "://").toList ++ (host.toList ++ rest.toList)
          = ([] : List Char) := by
        rw [← hurl]; rfl
      exact hh' (List.append_eq_nil.mp (List.append_eq_nil.mp h2).2).1
    unfold isGoogleUrl
    rw [if_neg hnonempty, hhost]
    simp only [Bool.or_eq_true, decide_eq_true_eq,
      List.isSuffixOf_iff_suffix]
    constructor
    · rintro (h | ⟨s, hs⟩)
      · exact Or.inl h
      · exact Or.inr ⟨s, hs.symm⟩
    · rintro (h | ⟨s, hs⟩)
      · exact Or.inl h
      · exact Or.inr ⟨s, hs.symm⟩

/-- Witness for C4: one redirect-wrapped URL, one direct URL, and a concrete
Google subdomain host. -/
theorem url_resolution_witness :
    extractActualUrl "https://www.google.com/url?q=https%3A%2F%2Fexample.com&sa=z"
      = percentDecode "https%3A%2F%2Fexample.com" ∧
    extractActualUrl "https://example.com/a" = some "https://example.com/a" ∧
    isGoogleUrl "https://maps.google.com/place" = true :=
  ⟨url_resolution.1 "https://www.google.com/" "https%3A%2F%2Fexample.com" "&sa=z"
      (by decide) (by decide) (by decide) (Or.inr ⟨['s', 'a', '=', 'z'], by decide⟩),
   url_resolution.2.1 "https://example.com/a" (by decide),
   (url_resolution.2.2 "maps.google.com" "/place" "https" (Or.inr rfl)
      (by decide) (by decide)
      (Or.inr ⟨'/', ['p', 'l', 'a', 'c', 'e'], by decide, by decide⟩)).mpr
     (Or.inr ⟨['m', 'a', 'p', 's'], by decide⟩)⟩

/-! ## Persistent store (`src/utils/database.ts`)

File-system persistence (`load`/`save`) is whole-state replace and carries
no behavioural content beyond the in-memory state, which is modelled here;
`lastUpdated` is a wall-clock artefact.  The `new Date().toISOString()`
stamp applied on insertion is passed in as the explicit parameter `ts`. -/

/-- `PlaceDataWithKeyword` (database.ts lines 10-17). -/
structure PlaceDataWithKeyword where
  name : String
  city : String
  category : String
  website : String
  keyword : String
  scrapedAt : Option String := none
  deriving DecidableEq

/-- The in-memory `DatabaseSchema` (database.ts lines 19-23), minus the
wall-clock `lastUpdated` field. -/
structure Db where
  places : List PlaceDataWithKeyword
  totalScraped : Nat
  deriving DecidableEq

/-- A store with no entries, as produced by `load` on a fresh file. -/
def emptyDb : Db := ⟨[], 0⟩

/-- `addPlace` (database.ts lines 90-107): the record is a duplicate when an
existing entry has the same `website` and that `website` is not `'N/A'`;
otherwise it is appended (stamped with the current time `ts`) and
`totalScraped` is incremented.  Returns the new store state and the boolean
the method returns. -/
def addPlace (ts : String) (db : Db) (place : PlaceDataWithKeyword) :
    Db × Bool :=
  if db.places.any (fun p => p.website == place.website
      && !(p.website == "N/A")) then
    (db, false)
  else
    ({ places := db.places ++ [{ place with scrapedAt := some ts }],
       totalScraped := db.totalScraped + 1 }, true)

/-- `addPlaces` (database.ts lines 112-120): run `addPlace` over the list in
order, counting the insertions that returned `true`. -/
def addPlaces (ts : String) (db : Db) :
    List PlaceDataWithKeyword → Db × Nat
  | [] => (db, 0)
  | p :: ps =>
    ((addPlaces ts (addPlace ts db p).1 ps).1,
     (if (addPlace ts db p).2 then 1 else 0)
       + (addPlaces ts (addPlace ts db p).1 ps).2)

/-- `reset` (database.ts lines 150-158): clear all entries. -/
def reset (_db : Db) : Db := ⟨[], 0⟩

/-- The Store invariant of the spec: no two entries share the same
non-sentinel `website` value. -/
def websiteDedup (places : List PlaceDataWithKeyword) : Prop :=
  List.Pairwise (fun a b => a.website = b.website → a.website = "N/A") places

/-- Record stamping applied on insertion. -/
def stamped (ts : String) (l : List PlaceDataWithKeyword) :
    List PlaceDataWithKeyword :=
  l.map fun p => { p with scrapedAt := some ts }

/-- A record whose `website` is the "not available" sentinel. -/
def naRecord : PlaceDataWithKeyword :=
  ⟨"Cafe X", "Springfield", "cafe", "N/A", "cafes", none⟩

theorem addPlace_of_fresh (ts : String) (db : Db) (p : PlaceDataWithKeyword)
    (h : ∀ q ∈ db.places, ¬(q.website = p.website ∧ q.website ≠ "N/A")) :
    addPlace ts db p =
      ({ places := db.places ++ [{ p with scrapedAt := some ts }],
         totalScraped := db.totalScraped + 1 }, true) := by
  unfold addPlace
  have hany : (db.places.any fun q => q.website == p.website
      && !(q.website == "N/A")) = false := by
    rw [List.any_eq_false]
    intro q hq hq2
    exact h q hq (by simpa using hq2)
  rw [hany]
  simp

theorem addPlace_of_dup (ts : String) (db : Db) (p q : PlaceDataWithKeyword)
    (hq : q ∈ db.places) (h1 : q.website = p.website)
    (h2 : q.website ≠ "N/A") :
    addPlace ts db p = (db, false) := by
  unfold addPlace
  have hany : (db.places.any fun r => r.website == p.website
      && !(r.website == "N/A")) = true := by
    rw [List.any_eq_true]
    refine ⟨q, hq, ?_⟩
    simp [h1, h1 ▸ h2]
  rw [hany]
  simp

theorem addPlaces_fresh :
    ∀ (l : List PlaceDataWithKeyword) (ts : String) (db : Db),
      List.Pairwise (fun a b => a.website ≠ b.website) l →
      (∀ p ∈ l, ∀ q ∈ db.places, q.website ≠ p.website) →
      addPlaces ts db l =
        ({ places := db.places ++ stamped ts l,
           totalScraped := db.totalScraped + l.length }, l.length)
  | [], ts, db, _, _ => by simp [addPlaces, stamped]
  | p :: ps, ts, db, hdist, hfresh => by
      have hp1 : ∀ q ∈ db.places, ¬(q.website = p.website ∧ q.website ≠ "N/A") :=
        fun q hq hcon => hfresh p (by simp) q hq hcon.1
      have hadd := addPlace_of_fresh ts db p hp1
      have hdist' := (List.pairwise_cons.mp hdist).2
      have hhead := (List.pairwise_cons.mp hdist).1
      have hfresh' : ∀ x ∈ ps,
          ∀ q ∈ db.places ++ [{ p with scrapedAt := some ts }],
            q.website ≠ x.website := by
        intro x hx q hqmem
        rcases List.mem_append.mp hqmem with hmem | hmem
        · exact hfresh x (by simp [hx]) q hmem
        · have : q = { p with scrapedAt := some ts } := by simpa using hmem
          subst this
          exact hhead x hx
      unfold addPlaces
      rw [hadd]
      dsimp only
      rw [addPlaces_fresh ps ts _ hdist' hfresh']
      simp only [stamped, List.map_cons, Prod.mk.injEq, Db.mk.injEq,
        List.cons_append, List.append_assoc, List.singleton_append,
        List.length_cons, if_true]
      refine ⟨⟨rfl, by omega⟩, by omega⟩

theorem addPlaces_dup :
    ∀ (l : List PlaceDataWithKeyword) (ts : String) (db : Db),
      (∀ p ∈ l, ∃ q ∈ db.places, q.website = p.website ∧ q.website ≠ "N/A") →
      addPlaces ts db l = (db, 0)
  | [], _, _, _ => rfl
  | p :: ps, ts, db, h => by
      obtain ⟨q, hq, h1, h2⟩ := h p (by simp)
      unfold addPlaces
      rw [addPlace_of_dup ts db p q hq h1 h2]
      dsimp only
      rw [addPlaces_dup ps ts db (fun x hx => h x (by simp [hx]))]
      rfl

/-- **C6 counterexample.** A record whose `website` is the `'N/A'` sentinel
is added by *both* calls: the second `addPlaces` over the same one-element
list returns 1 (not 0) and the store's entry count doubles from 1 to 2. -/
theorem addPlaces_twice_counterexample :
    (addPlaces "t1" emptyDb [naRecord]).2 = 1 ∧
    (addPlaces "t2" (addPlaces "t1" emptyDb [naRecord]).1 [naRecord]).2 = 1 ∧
    (addPlaces "t1" emptyDb [naRecord]).1.places.length = 1 ∧
    (addPlaces "t2" (addPlaces "t1" emptyDb [naRecord]).1
        [naRecord]).1.places.length = 2 := by
  decide

/-- **C6 (amended).** For every list of records with pairwise-distinct
websites, none of them the `'N/A'` sentinel, calling `addPlaces` on a store
containing none of their websites returns count-added = N; calling it again
with the same list returns 0, and the entry count after the second call
equals the entry count after the first call. -/
theorem addPlaces_twice_idempotent
    (ts ts' : String) (db : Db) (l : List PlaceDataWithKeyword)
    (hna : ∀ p ∈ l, p.website ≠ "N/A")
    (hdist : List.Pairwise (fun a b => a.website ≠ b.website) l)
    (hfresh : ∀ p ∈ l, ∀ q ∈ db.places, q.website ≠ p.website) :
    (addPlaces ts db l).2 = l.length ∧
    (addPlaces ts' (addPlaces ts db l).1 l).2 = 0 ∧
    (addPlaces ts' (addPlaces ts db l).1 l).1.places.length =
      (addPlaces ts db l).1.places.length := by
  have h1 := addPlaces_fresh l ts db hdist hfresh
  have hdb1 : (addPlaces ts db l).1.places = db.places ++ stamped ts l := by
    rw [h1]
  have hdup : ∀ p ∈ l, ∃ q ∈ (addPlaces ts db l).1.places,
      q.website = p.website ∧ q.website ≠ "N/A" := by
    intro p hp
    refine ⟨{ p with scrapedAt := some ts }, ?_, rfl, hna p hp⟩
    rw [hdb1]
    exact List.mem_append_right _ (List.mem_map_of_mem _ hp)
  have h2 := addPlaces_dup l ts' (addPlaces ts db l).1 hdup
  exact ⟨by rw [h1], by rw [h2], by rw [h2]⟩

/-- Witness for the amended C6: two records with distinct non-sentinel
websites, added twice to an empty store. -/
theorem addPlaces_twice_idempotent_witness :
    (addPlaces "t1" emptyDb
      [⟨"A", "S", "cafe", "https://a.example", "k", none⟩,
       ⟨"B", "S", "cafe", "https://b.example", "k", none⟩]).2 = 2 ∧
    (addPlaces "t2" (addPlaces "t1" emptyDb
      [⟨"A", "S", "cafe", "https://a.example", "k", none⟩,
       ⟨"B", "S", "cafe", "https://b.example", "k", none⟩]).1
      [⟨"A", "S", "cafe", "https://a.example", "k", none⟩,
       ⟨"B", "S", "cafe", "https://b.example", "k", none⟩]).2 = 0 ∧
    (addPlaces "t2" (addPlaces "t1" emptyDb
      [⟨"A", "S", "cafe", "https://a.example", "k", none⟩,
       ⟨"B", "S", "cafe", "https://b.example", "k", none⟩]).1
      [⟨"A", "S", "cafe", "https://a.example", "k", none⟩,
       ⟨"B", "S", "cafe", "https://b.example", "k", none⟩]).1.places.length =
    (addPlaces "t1" emptyDb
      [⟨"A", "S", "cafe", "https://a.example", "k", none⟩,
       ⟨"B", "S", "cafe", "https://b.example", "k", none⟩]).1.places.length :=
  addPlaces_twice_idempotent "t1" "t2" emptyDb _
    (by decide) (by decide) (by decide)

/-- **C7.** Every store operation preserves the invariant that no two
entries share a non-sentinel website: `addPlace` only appends a record whose
website duplicates no existing non-sentinel entry, `addPlaces` folds
`addPlace`, and `reset` yields the empty store. -/
theorem store_dedup_invariant :
    (∀ (ts : String) (db : Db) (p : PlaceDataWithKeyword),
      websiteDedup db.places → websiteDedup (addPlace ts db p).1.places) ∧
    (∀ (ts : String) (db : Db) (l : List PlaceDataWithKeyword),
      websiteDedup db.places → websiteDedup (addPlaces ts db l).1.places) ∧
    (∀ db : Db, websiteDedup (reset db).places) := by
  have haddPlace : ∀ (ts : String) (db : Db) (p : PlaceDataWithKeyword),
      websiteDedup db.places → websiteDedup (addPlace ts db p).1.places := by
    intro ts db p hinv
    by_cases hex : (db.places.any fun q => q.website == p.website
        && !(q.website == "N/A")) = true
    · have heq : addPlace ts db p = (db, false) := by
        unfold addPlace
        rw [hex]
        simp
      rw [heq]
      exact hinv
    · have hfalse : (db.places.any fun q => q.website == p.website
          && !(q.website == "N/A")) = false := Bool.eq_false_iff.mpr hex
      have heq : addPlace ts db p =
          ({ places := db.places ++ [{ p with scrapedAt := some ts }],
             totalScraped := db.totalScraped + 1 }, true) := by
        unfold addPlace
        rw [hfalse]
        simp
      rw [heq]
      show websiteDedup (db.places ++ [{ p with scrapedAt := some ts }])
      rw [websiteDedup, List.pairwise_append]
      refine ⟨hinv, List.pairwise_singleton _ _, ?_⟩
      intro a ha b hb
      have hb' : b = { p with scrapedAt := some ts } := by simpa using hb
      subst hb'
      intro hw
      have hw' : a.website = p.website := hw
      have hq := List.any_eq_false.mp hfalse a ha
      by_contra hna
      apply hq
      rw [hw'] at hna ⊢
      simp [hna]
  refine ⟨haddPlace, ?_, fun db => List.Pairwise.nil⟩
  intro ts db l
  induction l generalizing db with
  | nil => exact fun h => h
  | cons p ps ih =>
      intro hinv
      unfold addPlaces
      exact ih (addPlace ts db p).1 (haddPlace ts db p hinv)

/-- Witness for C7: the invariant is preserved when adding one record to the
empty store. -/
theorem store_dedup_invariant_witness :
    websiteDedup (addPlace "t" emptyDb naRecord).1.places :=
  store_dedup_invariant.1 "t" emptyDb naRecord (by simp [websiteDedup, emptyDb])

/-- **C8 counterexample.** A record whose `website` is `'N/A'` *is* added:
the store's entry collection grows and `addPlace` returns `true`. -/
theorem addPlace_na_counterexample :
    (addPlace "t" emptyDb naRecord).1.places.length = 1 ∧
    (addPlace "t" emptyDb naRecord).2 = true := by
  decide

/-- **C8 (amended).** A record whose `website` is the `'N/A'` sentinel is
*always* added by `addPlace` (the duplicate check never matches it, because
the check requires the matching entry's website to differ from `'N/A'`); it
is the extraction pipeline, not the store, that filters such records out. -/
theorem addPlace_na_always_added (ts : String) (db : Db)
    (p : PlaceDataWithKeyword) (h : p.website = "N/A") :
    addPlace ts db p =
      ({ places := db.places ++ [{ p with scrapedAt := some ts }],
         totalScraped := db.totalScraped + 1 }, true) := by
  apply addPlace_of_fresh
  intro q hq hcon
  exact hcon.2 (hcon.1.trans h)

/-- Witness for the amended C8. -/
theorem addPlace_na_always_added_witness :
    addPlace "t" emptyDb naRecord =
      ({ places := emptyDb.places ++ [{ naRecord with scrapedAt := some "t" }],
         totalScraped := emptyDb.totalScraped + 1 }, true) :=
  addPlace_na_always_added "t" emptyDb naRecord rfl

/-! ## Navigation controller (`src/utils/navigation.ts`, `navigateToUrl`) -/

/-- Observations of one navigation attempt: whether `page.goto` succeeds,
whether the caller-supplied custom selector resolves within its timeout, and
which readiness selectors resolve within theirs. -/
structure AttemptObs where
  gotoOk : Bool
  customFound : Bool
  readyFound : List Bool
  deriving DecidableEq

/-- The part of a `navigateToUrl` attempt after a successful `page.goto`
(navigation.ts lines 70-99): return `true` if the custom selector was
supplied and resolves; otherwise return `true` at the first readiness
selector that resolves; otherwise log a warning and still return `true`. -/
def attemptReady (hasCustom : Bool) (a : AttemptObs) : Bool :=
  if hasCustom && a.customFound then true
  else if a.readyFound.any id then true
  else true

/-- `navigateToUrl` (navigation.ts lines 53-120) driven by one observation
per attempt.  The observation list has length `MAX_RETRIES` (default 3); a
`goto` failure on the last attempt returns `false`, otherwise the next
attempt runs after a backoff. -/
def navigateToUrl (hasCustom : Bool) : List AttemptObs → Bool
  | [] => false
  | a :: rest =>
    if a.gotoOk then attemptReady hasCustom a
    else
      match rest with
      | [] => false
      | _ :: _ => navigateToUrl hasCustom rest

theorem attemptReady_eq_true (hasCustom : Bool) (a : AttemptObs) :
    attemptReady hasCustom a = true := by
  unfold attemptReady
  split
  · rfl
  · split <;> rfl

/-- **C9.** `navigateToUrl` always produces a boolean (no exception escapes
its boundary): it returns `false` exactly when every one of its navigation
attempts fails at `page.goto`, and an attempt whose page load succeeds makes
it return `true` even when neither the custom selector nor any readiness
selector resolves. -/
theorem navigateToUrl_error_contract :
    (∀ (hasCustom : Bool) (attempts : List AttemptObs),
      attempts ≠ [] →
      (navigateToUrl hasCustom attempts = false ↔
        ∀ a ∈ attempts, a.gotoOk = false)) ∧
    (∀ (hasCustom : Bool) (a : AttemptObs) (rest : List AttemptObs),
      a.gotoOk = true →
      navigateToUrl hasCustom (a :: rest) = true) := by
  constructor
  · intro hasCustom attempts
    induction attempts with
    | nil => exact fun h => absurd rfl h
    | cons a rest ih =>
        intro _
        unfold navigateToUrl
        cases hg : a.gotoOk with
        | true =>
            rw [if_pos rfl, attemptReady_eq_true]
            constructor
            · intro h; exact absurd h (by simp)
            · intro h
              have := h a (by simp)
              rw [hg] at this
              exact absurd this (by simp)
        | false =>
            rw [if_neg (by simp)]
            cases rest with
            | nil =>
                simp only [List.mem_singleton]
                constructor
                · intro _ b hb
                  rw [hb]
                  exact hg
                · intro _
                  trivial
            | cons b rest2 =>
                rw [ih (by simp)]
                constructor
                · intro h c hc
                  rcases List.mem_cons.mp hc with rfl | hc2
                  · exact hg
                  · exact h c hc2
                · intro h c hc
                  exact h c (by simp [hc])
  · intro hasCustom a rest hg
    unfold navigateToUrl
    rw [if_pos hg, attemptReady_eq_true]

/-- Witness for C9: three attempts whose `goto` all fail yield `false`; a
first-attempt page load with no resolving selector yields `true`. -/
theorem navigateToUrl_error_contract_witness :
    navigateToUrl true
      [⟨false, true, [true]⟩, ⟨false, true, [true]⟩, ⟨false, true, [true]⟩]
      = false ∧
    navigateToUrl true [⟨true, false, [false, false]⟩] = true :=
  ⟨(navigateToUrl_error_contract.1 true
      [⟨false, true, [true]⟩, ⟨false, true, [true]⟩, ⟨false, true, [true]⟩]
      (by decide)).mpr (by decide),
   navigateToUrl_error_contract.2 true ⟨true, false, [false, false]⟩ [] rfl⟩

/-! ## CSV export (`src/utils/export.ts`, `exportToCSV`) -/

/-- `PlaceData` (types.ts): the four exported fields. -/
structure PlaceData where
  name : String
  city : String
  category : String
  website : String
  deriving DecidableEq

/-- `value.replace(/"/g, '""')`. -/
def doubleQuotes (cs : List Char) : List Char :=
  cs.foldr (fun c acc => if c = '"' then '"' :: '"' :: acc else c :: acc) []

/-- The escaping in `exportToCSV` (export.ts lines 63-70): a field
containing a comma or a double quote is wrapped in double quotes with the
internal double quotes doubled; any other field is emitted as is. -/
def escapeCsvField (v : String) : String :=
  if v.toList.contains ',' || v.toList.contains '"' then
    String.mk ('"' :: (doubleQuotes v.toList ++ ['"']))
  else v

/-- One data row: the four escaped fields joined with commas
(`row.join(',')`). -/
def csvRow (r : PlaceData) : String :=
  String.intercalate ","
    [escapeCsvField r.name, escapeCsvField r.city,
     escapeCsvField r.category, escapeCsvField r.website]

/-- `exportToCSV` (export.ts lines 53-77): the header row followed by one
row per record, joined with newlines (file-system writing dropped). -/
def exportToCSV (data : List PlaceData) : String :=
  String.intercalate "\n" ("name,city,category,website" :: data.map csvRow)

/-- RFC-4180 parsing of the interior of a quoted cell (after the opening
quote): `""` is an escaped quote, a lone `"` closes the cell and must end
the input, and the cell may contain commas and line breaks. -/
def parseQuotedBody : List Char → Option (List Char)
  | [] => none
  | c :: rest =>
    if c = '"' then
      match rest with
      | [] => some []
      | c2 :: rest2 =>
        if c2 = '"' then (parseQuotedBody rest2).map (fun l => '"' :: l)
        else none
    else (parseQuotedBody rest).map (fun l => c :: l)

/-- RFC-4180 parsing of one whole cell: either a fully quoted cell, or bare
text free of quotes, commas and line breaks. -/
def parseCellChars (cs : List Char) : Option (List Char) :=
  if cs.head? = some '"' then parseQuotedBody cs.tail
  else if cs.all (fun c => c != ',' && c != '"' && c != '\n' && c != '\r') then
    some cs
  else none

/-- RFC-4180 parsing of one whole cell, on strings. -/
def parseCsvCell (s : String) : Option String :=
  (parseCellChars s.toList).map String.mk

theorem parseQuotedBody_doubleQuotes :
    ∀ cs : List Char, parseQuotedBody (doubleQuotes cs ++ ['"']) = some cs
  | [] => rfl
  | c :: cs => by
      by_cases hc : c = '"'
      · subst hc
        show (parseQuotedBody (doubleQuotes cs ++ ['"'])).map
            (fun l => '"' :: l) = some ('"' :: cs)
        rw [parseQuotedBody_doubleQuotes cs]
        rfl
      · have hd : doubleQuotes (c :: cs) = c :: doubleQuotes cs := by
          unfold doubleQuotes
          rw [List.foldr_cons, if_neg hc]
        rw [hd, List.cons_append]
        rw [parseQuotedBody.eq_def]
        simp only [if_neg hc]
        rw [parseQuotedBody_doubleQuotes cs]
        rfl

/-- **C10.** `exportToCSV` is the header row `name,city,category,website`
followed by one comma-joined row per record; every field containing a comma
or a double quote is emitted wrapped in double quotes with internal quotes
doubled, and such a cell round-trips: RFC-4180 parsing of the emitted cell
recovers the original field (for any field free of raw line breaks).  In
particular the record name `"A, B"` is emitted as `"\"A, B\""` and parses
back to `"A, B"`. -/
theorem exportToCSV_escaping_roundtrip :
    (∀ data : List PlaceData,
      exportToCSV data =
        String.intercalate "\n"
          ("name,city,category,website" :: data.map csvRow)) ∧
    (∀ s : String, '\n' ∉ s.toList → '\r' ∉ s.toList →
      parseCsvCell (escapeCsvField s) = some s) ∧
    escapeCsvField "A, B" = "\"A, B\"" ∧
    parseCsvCell "\"A, B\"" = some "A, B" ∧
    csvRow ⟨"A, B", "Springfield", "cafe", "https://ab.example"⟩
      = "\"A, B\",Springfield,cafe,https://ab.example" := by
  refine ⟨fun _ => rfl, fun s hn hr => ?_, by decide, by decide, by decide⟩
  unfold escapeCsvField
  by_cases hq : (s.toList.contains ',' || s.toList.contains '"') = true
  · rw [if_pos hq]
    unfold parseCsvCell
    have hlist : (String.mk ('"' :: (doubleQuotes s.toList ++ ['"']))).toList
        = '"' :: (doubleQuotes s.toList ++ ['"']) := rfl
    rw [hlist]
    unfold parseCellChars
    rw [List.head?_cons, if_pos rfl]
    show (parseQuotedBody (doubleQuotes s.toList ++ ['"'])).map String.mk
      = some s
    rw [parseQuotedBody_doubleQuotes]
    rfl
  · rw [if_neg hq]
    have hcomma : ',' ∉ s.toList := fun h => hq (by simp; exact Or.inl h)
    have hquote : '"' ∉ s.toList := fun h => hq (by simp; exact Or.inr h)
    unfold parseCsvCell parseCellChars
    have hhead : ¬s.toList.head? = some '"' := by
      cases hl : s.toList with
      | nil => simp
      | cons c t =>
          simp only [List.head?_cons, Option.some.injEq]
          intro hc
          subst hc
          exact hquote (by rw [hl]; simp)
    have hall : s.toList.all
        (fun c => c != ',' && c != '"' && c != '\n' && c != '\r') = true := by
      rw [List.all_eq_true]
      intro c hc
      have h1 : c ≠ ',' := fun h => hcomma (h ▸ hc)
      have h2 : c ≠ '"' := fun h => hquote (h ▸ hc)
      have h3 : c ≠ '\n' := fun h => hn (h ▸ hc)
      have h4 : c ≠ '\r' := fun h => hr (h ▸ hc)
      simp [h1, h2, h3, h4]
    rw [if_neg hhead, if_pos hall]
    rfl

/-- Witness for C10: the `"A, B"` cell round-trips through the emitted CSV
escaping and RFC-4180 parsing. -/
theorem exportToCSV_escaping_roundtrip_witness :
    parseCsvCell (escapeCsvField "A, B") = some "A, B" :=
  exportToCSV_escaping_roundtrip.2.1 "A, B" (by decide) (by decide)

end GMaps
